import Mathlib

/- Shallow embedding of the core of the content-directory repository:
   the query/filter/sort pipeline (src/lib/search-filter-sort.ts), the
   dataset loader and category normalizer (src/lib/dataset.ts), the schema
   validator (src/lib/validation.ts) and the statistics aggregator
   (src/lib/homepage-stats.ts).

   Modelling conventions:
   * JavaScript numbers are `JSNum`: NaN or an exact rational.  Rounding and
     infinities are outside the model; every comparison involving NaN is
     false, mirroring IEEE-754 comparison semantics.
   * JavaScript strings are Lean `String`s; `toLowerCase` is modelled per
     character by `Char.toLower` (basic-latin case mapping, the ASCII
     fragment of the ECMAScript mapping) and `trim` strips the whitespace
     recognised by `Char.isWhitespace`.
   * Untrusted JSON values (arguments of the validator and the loader) are
     modelled by the inductive `JSValue`; `typeof`, truthiness, property
     access and `Array.isArray` get their ECMAScript meaning on that type.
     Objects are association lists without duplicate keys (what JSON.parse
     produces).
   * `Array.prototype.sort` is modelled by a stable insertion sort, matching
     the stability ECMAScript requires of `sort`; an element `a` may stay
     before `b` exactly when the comparator result is not positive (NaN
     comparator results count as "keep", as in the SortCompare spec). -/

inductive JSNum where
  | nan : JSNum
  | num : ℚ → JSNum
deriving DecidableEq

namespace JSNum

/-- JavaScript `<` on numbers: false whenever either side is NaN. -/
def ltB : JSNum → JSNum → Bool
  | num a, num b => decide (a < b)
  | _, _ => false

/-- JavaScript `>` on numbers: false whenever either side is NaN. -/
def gtB : JSNum → JSNum → Bool
  | num a, num b => decide (b < a)
  | _, _ => false

/-- JavaScript `+` on numbers; NaN propagates. -/
def add : JSNum → JSNum → JSNum
  | num a, num b => num (a + b)
  | _, _ => nan

/-- JavaScript `-` on numbers; NaN propagates. -/
def sub : JSNum → JSNum → JSNum
  | num a, num b => num (a - b)
  | _, _ => nan

/-- JavaScript `/` on numbers; NaN propagates, division by zero is outside
the model (all uses in the sources are guarded by a positivity test). -/
def div : JSNum → JSNum → JSNum
  | num a, num b => if b = 0 then nan else num (a / b)
  | _, _ => nan

/-- Rational value of a non-NaN number (0 on NaN; only used under
non-NaN hypotheses). -/
def toQ : JSNum → ℚ
  | nan => 0
  | num q => q

end JSNum

/-- Model of `String.prototype.toLowerCase` (basic-latin fragment). -/
def jsToLower (s : String) : String :=
  String.mk (s.data.map Char.toLower)

/-- Character-list trimming: drop leading and trailing whitespace. -/
def jsTrimChars (l : List Char) : List Char :=
  List.rdropWhile Char.isWhitespace (List.dropWhile Char.isWhitespace l)

/-- Model of `String.prototype.trim`. -/
def jsTrim (s : String) : String :=
  String.mk (jsTrimChars s.data)

/-- Does the first list occur as a leading segment of the second? -/
def startsWithChars : List Char → List Char → Bool
  | [], _ => true
  | _ :: _, [] => false
  | a :: as, b :: bs => a = b && startsWithChars as bs

/-- Does `q` occur contiguously somewhere inside the second list? -/
def hasSubChars (q : List Char) : List Char → Bool
  | [] => startsWithChars q []
  | c :: rest => startsWithChars q (c :: rest) || hasSubChars q rest

/-- Model of `String.prototype.includes`: `jsIncludes s q` is `s.includes(q)`. -/
def jsIncludes (s q : String) : Bool :=
  hasSubChars q.data s.data

/-- An entry of the dataset (src/lib/types.ts, `BaseItem`).  The optional
`imageUrl` and the variant-specific fields (founder, pricing, ...) are not
consulted by any function modelled here and are omitted. -/
structure DatasetItem where
  id : String
  slug : String
  name : String
  description : String
  category : String
  tags : List String
  rating : JSNum
  createdAt : String
deriving DecidableEq

/-- The dataset shape (src/lib/types.ts, `Dataset`). -/
structure Dataset where
  type : String
  items : List DatasetItem
  categories : List String
  tags : List String
deriving DecidableEq

/-- Embedding of `searchItems` (src/lib/search-filter-sort.ts). -/
def searchItems (items : List DatasetItem) (query : String) : List DatasetItem :=
  if query = "" ∨ jsTrim query = "" then items
  else
    let normalizedQuery := jsTrim (jsToLower query)
    items.filter fun item =>
      jsIncludes (jsToLower item.name) normalizedQuery
        || jsIncludes (jsToLower item.description) normalizedQuery
        || item.tags.any fun tag => jsIncludes (jsToLower tag) normalizedQuery

/-- Embedding of `filterByCategory` (src/lib/search-filter-sort.ts). -/
def filterByCategory (items : List DatasetItem) (category : String) : List DatasetItem :=
  if category = "" ∨ jsTrim category = "" then items
  else
    let normalizedCategory := jsTrim (jsToLower category)
    items.filter fun item => decide (jsTrim (jsToLower item.category) = normalizedCategory)

/-- Embedding of `filterByTags` (src/lib/search-filter-sort.ts);
`item.tags.includes(tag)` is exact membership. -/
def filterByTags (items : List DatasetItem) (tags : List String) : List DatasetItem :=
  if tags = [] then items
  else items.filter fun item => tags.any fun tag => item.tags.contains tag

/-- The four sort modes accepted by `sortItems`. -/
inductive SortBy where
  | nameAsc
  | nameDesc
  | ratingAsc
  | ratingDesc
deriving DecidableEq

/-- Model of `String.prototype.localeCompare`: the default locale is taken
to order strings lexicographically by code point. -/
def localeCompare (a b : String) : Int :=
  if a < b then -1 else if a = b then 0 else 1

/-- The comparator `sortItems` passes to `Array.prototype.sort` for each
mode (name modes return `localeCompare`, rating modes a JS subtraction). -/
def comparatorOf : SortBy → DatasetItem → DatasetItem → JSNum
  | SortBy.nameAsc, a, b => JSNum.num (localeCompare a.name b.name)
  | SortBy.nameDesc, a, b => JSNum.num (localeCompare b.name a.name)
  | SortBy.ratingAsc, a, b => JSNum.sub a.rating b.rating
  | SortBy.ratingDesc, a, b => JSNum.sub b.rating a.rating

/-- ECMAScript SortCompare: `a` may stay before `b` exactly when the
comparator result is not positive (NaN counts as zero). -/
def sortKeeps {α : Type} (cmp : α → α → JSNum) (a b : α) : Bool :=
  ! JSNum.gtB (cmp a b) (JSNum.num 0)

/-- Insert into a sorted list, before the first element that may follow. -/
def orderedInsertB {α : Type} (le : α → α → Bool) (a : α) : List α → List α
  | [] => [a]
  | b :: l => if le a b then a :: b :: l else b :: orderedInsertB le a l

/-- Stable insertion sort; the model of `Array.prototype.sort` (stable per
the ECMAScript specification). -/
def insertionSortB {α : Type} (le : α → α → Bool) : List α → List α
  | [] => []
  | a :: l => orderedInsertB le a (insertionSortB le l)

/-- Embedding of `sortItems` (src/lib/search-filter-sort.ts): copy the
array, then stable-sort it with the mode's comparator. -/
def sortItems (items : List DatasetItem) (sortBy : SortBy) : List DatasetItem :=
  insertionSortB (sortKeeps (comparatorOf sortBy)) items

/-- Embedding of `normalizeCategoryForUrl` (src/lib/dataset.ts). -/
def normalizeCategoryForUrl (category : String) : String :=
  jsTrim (jsToLower category)

/-- Embedding of `findOriginalCategory` (src/lib/dataset.ts).  The source
returns `found || null`, so a found empty string also becomes null. -/
def findOriginalCategory (normalizedCategory : String) (categories : List String) :
    Option String :=
  let normalized := jsTrim (jsToLower normalizedCategory)
  match categories.find? (fun cat => decide (jsTrim (jsToLower cat) = normalized)) with
  | some found => if found = "" then none else some found
  | none => none

/-- Model of an untrusted JavaScript/JSON value, the argument type of the
validator and of the loader. -/
inductive JSValue where
  | null : JSValue
  | undef : JSValue
  | boolV : Bool → JSValue
  | numV : JSNum → JSValue
  | strV : String → JSValue
  | arrV : List JSValue → JSValue
  | objV : List (String × JSValue) → JSValue

namespace JSValue

/-- ECMAScript ToBoolean. -/
def truthy : JSValue → Bool
  | null => false
  | undef => false
  | boolV b => b
  | numV JSNum.nan => false
  | numV (JSNum.num q) => decide (q ≠ 0)
  | strV s => decide (s ≠ "")
  | arrV _ => true
  | objV _ => true

/-- ECMAScript `typeof`. -/
def typeOf : JSValue → String
  | null => "object"
  | undef => "undefined"
  | boolV _ => "boolean"
  | numV _ => "number"
  | strV _ => "string"
  | arrV _ => "object"
  | objV _ => "object"

/-- ECMAScript `Array.isArray`. -/
def isArr : JSValue → Bool
  | arrV _ => true
  | _ => false

/-- First binding of a key in an object's association list (objects coming
from JSON.parse carry no duplicate keys). -/
def lookupField : List (String × JSValue) → String → Option JSValue
  | [], _ => none
  | (k, v) :: rest, f => if k = f then some v else lookupField rest f

/-- The `in` operator for the property names the sources query.  On arrays
only `length` is a string-named own property. -/
def hasField : JSValue → String → Bool
  | objV fs, f => (lookupField fs f).isSome
  | arrV _, f => f == "length"
  | _, _ => false

/-- Property access `value[f]`; absent properties read as undefined. -/
def getField : JSValue → String → JSValue
  | objV fs, f => (lookupField fs f).getD undef
  | arrV xs, f => if f = "length" then numV (JSNum.num xs.length) else undef
  | _, _ => undef

end JSValue

/-- The `requiredFields` table of `isValidItem` (src/lib/validation.ts),
in the iteration order of `Object.entries`. -/
def requiredFieldsList : List (String × String) :=
  [("name", "string"), ("category", "string"), ("tags", "array"),
    ("rating", "number"), ("description", "string")]

/-- The `value.every(tag => typeof tag === 'string')` check of the tags
branch; only applied to arrays. -/
def allStringElems : JSValue → Bool
  | JSValue.arrV xs => xs.all fun t => t.typeOf == "string"
  | _ => true

/-- The field loop of `isValidItem`: presence and type of each required
field, with the extra element check on the `tags` array. -/
def checkRequiredFields (item : JSValue) : List (String × String) → Bool
  | [] => true
  | (field, expectedType) :: rest =>
    if ! item.hasField field then false
    else
      let value := item.getField field
      if expectedType == "array" then
        if ! value.isArr then false
        else if field == "tags" && ! allStringElems value then false
        else checkRequiredFields item rest
      else if value.typeOf != expectedType then false
      else checkRequiredFields item rest

/-- The final `item.rating < 0 || item.rating > 5` test of `isValidItem`;
by that point the field loop has established that the value is a number. -/
def ratingOutOfRange : JSValue → Bool
  | JSValue.numV r => JSNum.ltB r (JSNum.num 0) || JSNum.gtB r (JSNum.num 5)
  | _ => false

/-- Success condition of one iteration of the field loop, used to state the
validator's behaviour as a conjunction over the required fields (negations
of the loop's failure tests, verbatim). -/
def fieldOk (item : JSValue) (field expectedType : String) : Bool :=
  item.hasField field &&
    (if expectedType == "array" then
      (item.getField field).isArr
        && ! (field == "tags" && ! allStringElems (item.getField field))
    else ! ((item.getField field).typeOf != expectedType))

/-- Embedding of `isValidItem` (src/lib/validation.ts). -/
def isValidItem (item : JSValue) : Bool :=
  if ! item.truthy || item.typeOf != "object" then false
  else if ! checkRequiredFields item requiredFieldsList then false
  else if ratingOutOfRange (item.getField "rating") then false
  else true

/-- Embedding of `isValidDataset` (src/lib/validation.ts): shape checks on
the four top-level fields, then every item must pass `isValidItem` (the
source collects the indices of invalid items and fails when there is at
least one, which is the same boolean). -/
def isValidDataset (dataset : JSValue) : Bool :=
  if ! dataset.truthy || dataset.typeOf != "object" then false
  else if ! dataset.hasField "items" || ! (dataset.getField "items").isArr then false
  else if ! dataset.hasField "type" || (dataset.getField "type").typeOf != "string" then false
  else if ! dataset.hasField "categories" || ! (dataset.getField "categories").isArr then false
  else if ! dataset.hasField "tags" || ! (dataset.getField "tags").isArr then false
  else
    match dataset.getField "items" with
    | JSValue.arrV xs => xs.all isValidItem
    | _ => true

/-- Embedding of `loadDataset` (src/lib/dataset.ts), as a function of the
statically imported JSON value.  Each failing guard throws; the outer
catch block rewraps the message with a `Dataset loading failed: ` prefix. -/
def loadDataset (datasetJson : JSValue) : Except String JSValue :=
  if ! datasetJson.truthy then
    Except.error "Dataset loading failed: Dataset file is missing or empty. Please ensure data/dataset.json exists and contains valid data."
  else if datasetJson.typeOf != "object" then
    Except.error "Dataset loading failed: Dataset must be a valid JSON object"
  else if ! (datasetJson.getField "type").truthy then
    Except.error "Dataset loading failed: Dataset must have a \"type\" field"
  else if ! (datasetJson.getField "items").isArr then
    Except.error "Dataset loading failed: Dataset must have an \"items\" array"
  else if ! (datasetJson.getField "categories").isArr then
    Except.error "Dataset loading failed: Dataset must have a \"categories\" array"
  else if ! (datasetJson.getField "tags").isArr then
    Except.error "Dataset loading failed: Dataset must have a \"tags\" array"
  else Except.ok datasetJson

/-- The module-level state of src/lib/dataset.ts: the `cachedDataset`
variable (initially null), instrumented with a count of how many times
`loadDataset` has been invoked so that memoization is observable. -/
structure LoaderState where
  cachedDataset : JSValue
  loadCalls : Nat

/-- State of the loader module at process start. -/
def initialLoaderState : LoaderState :=
  LoaderState.mk JSValue.null 0

/-- Embedding of `getDataset` (src/lib/dataset.ts) as an explicit state
transformer: on a falsy cache it runs `loadDataset` (counted) and stores a
successful result; a thrown error propagates and leaves the cache empty. -/
def getDataset (datasetJson : JSValue) (st : LoaderState) :
    Except String JSValue × LoaderState :=
  if st.cachedDataset.truthy then (Except.ok st.cachedDataset, st)
  else
    match loadDataset datasetJson with
    | Except.ok d => (Except.ok d, LoaderState.mk d (st.loadCalls + 1))
    | Except.error e => (Except.error e, LoaderState.mk st.cachedDataset (st.loadCalls + 1))

/-- Loader-module state after `n` calls of `getDataset` in one process. -/
def loaderStateAfter (datasetJson : JSValue) : Nat → LoaderState
  | 0 => initialLoaderState
  | n + 1 => (getDataset datasetJson (loaderStateAfter datasetJson n)).2

/-- Value returned by the `(n+1)`-st call of `getDataset` in one process. -/
def getDatasetResult (datasetJson : JSValue) (n : Nat) : Except String JSValue :=
  (getDataset datasetJson (loaderStateAfter datasetJson n)).1

/-- Result record of `calculateHomepageStatistics` (src/lib/homepage-stats.ts). -/
structure HomepageStatistics where
  totalItems : Nat
  totalCategories : Nat
  totalTags : Nat
  averageRating : JSNum
deriving DecidableEq

/-- Embedding of `calculateHomepageStatistics` (src/lib/homepage-stats.ts). -/
def calculateHomepageStatistics (dataset : Dataset) : HomepageStatistics :=
  let totalItems := dataset.items.length
  let totalCategories := dataset.categories.length
  let totalTags := dataset.tags.length
  let averageRating :=
    if 0 < totalItems then
      JSNum.div (dataset.items.foldl (fun sum item => JSNum.add sum item.rating) (JSNum.num 0))
        (JSNum.num totalItems)
    else JSNum.num 0
  HomepageStatistics.mk totalItems totalCategories totalTags averageRating

/- Concrete items used by witnesses. -/

def itW1 : DatasetItem :=
  DatasetItem.mk "id1" "alpha" "Alpha" "first item" "Fintech" ["ai", "ml"]
    (JSNum.num 4) "2024-01-01"

def itW2 : DatasetItem :=
  DatasetItem.mk "id2" "beta" "Beta" "second item" "HealthTech" ["fintech"]
    (JSNum.num 2) "2024-01-02"

def itW3 : DatasetItem :=
  DatasetItem.mk "id3" "gamma" "Gamma" "third item" "Fintech" ["ml"]
    (JSNum.num 4) "2024-01-03"

/-- Adjacent-pair ordering each sort mode promises for its result, in the
claim's terms: nonpositive localeCompare for the name modes, numeric
comparison of the ratings for the rating modes. -/
def sortedBySpec : SortBy → DatasetItem → DatasetItem → Bool
  | SortBy.nameAsc, a, b => decide (localeCompare a.name b.name ≤ 0)
  | SortBy.nameDesc, a, b => decide (localeCompare b.name a.name ≤ 0)
  | SortBy.ratingAsc, a, b => decide (a.rating.toQ ≤ b.rating.toQ)
  | SortBy.ratingDesc, a, b => decide (b.rating.toQ ≤ a.rating.toQ)

/-- Two items compare equal under the mode's comparator. -/
def comparesEqual (mode : SortBy) (a b : DatasetItem) : Bool :=
  comparatorOf mode a b == JSNum.num 0

/-- Concrete dataset used by witnesses. -/
def dsW : Dataset :=
  Dataset.mk "startups" [itW1, itW2, itW3] ["Fintech", "HealthTech"] ["ai", "ml", "fintech"]

/-- A well-shaped raw source value except that its `type` field is the
empty string (a string, but falsy). -/
def dsEmptyType : JSValue :=
  JSValue.objV [("type", JSValue.strV ""), ("items", JSValue.arrV []),
    ("categories", JSValue.arrV []), ("tags", JSValue.arrV [])]

/-- A well-shaped raw source value accepted by the loader. -/
def dsGood : JSValue :=
  JSValue.objV [("type", JSValue.strV "startups"), ("items", JSValue.arrV []),
    ("categories", JSValue.arrV []), ("tags", JSValue.arrV [])]

/-- Field list of a candidate item whose rating is NaN. -/
def vNaNFields : List (String × JSValue) :=
  [("name", JSValue.strV "Acme"), ("category", JSValue.strV "Fintech"),
    ("tags", JSValue.arrV [JSValue.strV "ai"]), ("rating", JSValue.numV JSNum.nan),
    ("description", JSValue.strV "desc")]

/-- A candidate item with all five required fields well-typed but with a
NaN rating. -/
def vNaN : JSValue :=
  JSValue.objV vNaNFields

/-- A candidate missing the `name` field. -/
def vMissingName : JSValue :=
  JSValue.objV [("category", JSValue.strV "Fintech"),
    ("tags", JSValue.arrV [JSValue.strV "ai"]), ("rating", JSValue.numV (JSNum.num 3)),
    ("description", JSValue.strV "desc")]

/-- A candidate whose rating 6 exceeds the valid range. -/
def vBadRating : JSValue :=
  JSValue.objV [("name", JSValue.strV "Acme"), ("category", JSValue.strV "Fintech"),
    ("tags", JSValue.arrV [JSValue.strV "ai"]), ("rating", JSValue.numV (JSNum.num 6)),
    ("description", JSValue.strV "desc")]

/-- A valid candidate carrying extra fields (id, slug, createdAt). -/
def vExtraA : JSValue :=
  JSValue.objV [("name", JSValue.strV "Acme"), ("category", JSValue.strV "Fintech"),
    ("tags", JSValue.arrV [JSValue.strV "ai"]), ("rating", JSValue.numV (JSNum.num 3)),
    ("description", JSValue.strV "desc"), ("id", JSValue.strV "i1"),
    ("slug", JSValue.strV "acme"), ("createdAt", JSValue.strV "2024-01-01")]

/-- The same candidate as vExtraA without the extra fields. -/
def vExtraB : JSValue :=
  JSValue.objV [("name", JSValue.strV "Acme"), ("category", JSValue.strV "Fintech"),
    ("tags", JSValue.arrV [JSValue.strV "ai"]), ("rating", JSValue.numV (JSNum.num 3)),
    ("description", JSValue.strV "desc")]

/- Helper lemmas about the string model. -/

theorem strData_mk (l : List Char) : (String.mk l).data = l := rfl

theorem char_toNat_ofNat_of_valid (n : Nat) (h : n.isValidChar) :
    (Char.ofNat n).toNat = n := by
  unfold Char.ofNat
  rw [dif_pos h]
  rfl

theorem char_toLower_idem (c : Char) : (Char.toLower c).toLower = Char.toLower c := by
  by_cases h : c.toNat ≥ 65 ∧ c.toNat ≤ 90
  · have h1 : Char.toLower c = Char.ofNat (c.toNat + 32) := by
      simp only [Char.toLower]
      rw [if_pos h]
    have h2 : (Char.ofNat (c.toNat + 32)).toNat = c.toNat + 32 :=
      char_toNat_ofNat_of_valid _ (Or.inl (by omega))
    rw [h1]
    simp only [Char.toLower, h2]
    rw [if_neg (by omega)]
  · have h1 : Char.toLower c = c := by
      simp only [Char.toLower]
      rw [if_neg h]
    rw [h1, h1]

theorem dropWhile_eq_cons_false {α : Type} {p : α → Bool} :
    ∀ {l : List α} {a : α} {t : List α}, List.dropWhile p l = a :: t → p a = false := by
  intro l
  induction l with
  | nil => intro a t h; simp [List.dropWhile] at h
  | cons b s ih =>
    intro a t h
    rw [List.dropWhile_cons] at h
    by_cases hb : p b
    · rw [if_pos hb] at h
      exact ih h
    · rw [if_neg hb] at h
      cases h
      simpa using hb

theorem dropWhile_rdropWhile_dropWhile {α : Type} (p : α → Bool) (l : List α) :
    List.dropWhile p (List.rdropWhile p (List.dropWhile p l))
      = List.rdropWhile p (List.dropWhile p l) := by
  cases hA : List.dropWhile p l with
  | nil => simp [List.rdropWhile_nil]
  | cons a t =>
    have hpa : p a = false := dropWhile_eq_cons_false hA
    have hpre : List.rdropWhile p (a :: t) <+: (a :: t) := by
      apply List.rdropWhile_prefix
    rcases hpre with ⟨r, hr⟩
    cases hB : List.rdropWhile p (a :: t) with
    | nil => simp
    | cons b s =>
      rw [hB, List.cons_append] at hr
      have hba : b = a := by
        injection hr
      subst hba
      rw [List.dropWhile_cons, if_neg (by simp [hpa])]

theorem jsTrimChars_idem (l : List Char) : jsTrimChars (jsTrimChars l) = jsTrimChars l := by
  unfold jsTrimChars
  rw [dropWhile_rdropWhile_dropWhile]
  apply List.rdropWhile_idempotent

theorem mem_of_mem_jsTrimChars {x : Char} {l : List Char} (h : x ∈ jsTrimChars l) : x ∈ l := by
  unfold jsTrimChars at h
  have hpre : List.rdropWhile Char.isWhitespace (List.dropWhile Char.isWhitespace l)
      <+: List.dropWhile Char.isWhitespace l := by
    apply List.rdropWhile_prefix
  have h1 : x ∈ List.dropWhile Char.isWhitespace l := List.Sublist.mem h hpre.sublist
  exact List.Sublist.mem h1 (by apply List.dropWhile_sublist)

theorem normKeyChars_idem (l : List Char) :
    jsTrimChars ((jsTrimChars (l.map Char.toLower)).map Char.toLower)
      = jsTrimChars (l.map Char.toLower) := by
  have hm : (jsTrimChars (l.map Char.toLower)).map Char.toLower
      = jsTrimChars (l.map Char.toLower) := by
    have h : ∀ x ∈ jsTrimChars (l.map Char.toLower), Char.toLower x = id x := by
      intro x hx
      rcases List.mem_map.mp (mem_of_mem_jsTrimChars hx) with ⟨y, _, rfl⟩
      exact char_toLower_idem y
    rw [List.map_congr_left h, List.map_id]
  rw [hm]
  exact jsTrimChars_idem _

theorem normalizeCategoryForUrl_idem (s : String) :
    normalizeCategoryForUrl (normalizeCategoryForUrl s) = normalizeCategoryForUrl s := by
  simp only [normalizeCategoryForUrl, jsTrim, jsToLower, strData_mk]
  exact congrArg String.mk (normKeyChars_idem s.data)

/-- C1: for every item collection and query string q, searchItems is the
identity when q is empty or trims to empty, and otherwise is exactly the
order-preserving subsequence of items whose lower-cased name, lower-cased
description, or some lower-cased tag contains the lower-cased trimmed q as
a substring; in particular the result is always a sublist of the input. -/
theorem searchItems_spec (items : List DatasetItem) (q : String) :
    searchItems items q =
      (if q = "" ∨ jsTrim q = "" then items
       else items.filter fun item =>
         jsIncludes (jsToLower item.name) (jsTrim (jsToLower q))
           || jsIncludes (jsToLower item.description) (jsTrim (jsToLower q))
           || item.tags.any fun tag => jsIncludes (jsToLower tag) (jsTrim (jsToLower q)))
    ∧ (searchItems items q).Sublist items := by
  refine ⟨rfl, ?_⟩
  unfold searchItems
  by_cases h : q = "" ∨ jsTrim q = ""
  · rw [if_pos h]
  · rw [if_neg h]
    apply List.filter_sublist

/-- C4: filterByCategory is the identity on an empty or whitespace-only
category and otherwise keeps exactly the items whose category equals the
requested one under case- and whitespace-insensitive comparison; hence
filtering by "Fintech" and by "FINTECH" yields identical results. -/
theorem filterByCategory_spec (items : List DatasetItem) (c : String) :
    filterByCategory items c =
      (if c = "" ∨ jsTrim c = "" then items
       else items.filter fun item =>
         decide (jsTrim (jsToLower item.category) = jsTrim (jsToLower c)))
    ∧ filterByCategory items "Fintech" = filterByCategory items "FINTECH" := by
  exact ⟨rfl, rfl⟩

/-- C5: filterByTags is the identity on an empty requested-tag list and
otherwise keeps exactly the items having at least one requested tag as a
verbatim member of their tag sequence (exact string equality); the trailing
conjuncts exhibit the asymmetry with searchItems, whose tag matching is by
substring: the tag "fintech" is not matched by filterByTags ["fin"] but is
matched by searchItems with query "fin". -/
theorem filterByTags_spec (items : List DatasetItem) (tags : List String) :
    filterByTags items tags =
      (if tags = [] then items
       else items.filter fun item => decide (∃ t ∈ tags, t ∈ item.tags))
    ∧ filterByTags [itW2] ["fin"] = []
    ∧ searchItems [itW2] "fin" = [itW2] := by
  refine ⟨?_, by decide, by decide⟩
  by_cases h : tags = []
  · rw [filterByTags, if_pos h, if_pos h]
  · rw [filterByTags, if_neg h, if_neg h]
    apply List.filter_congr
    intro x _
    simp [List.any_eq]

/-- C3 counterexample: the round-trip law fails on the category list
["A", "a"] at the category "a" (the reverse lookup returns the earlier
case-variant "A"), and on the category list [""] at the category ""
(the source's found-or-null coercion turns the found empty string into
null). -/
theorem findOriginalCategory_roundtrip_counterexample :
    ("a" ∈ ["A", "a"] ∧ findOriginalCategory (normalizeCategoryForUrl "a") ["A", "a"] ≠ some "a")
    ∧ ("" ∈ [""] ∧ findOriginalCategory (normalizeCategoryForUrl "") [""] ≠ some "") := by
  decide

theorem find?_normalized_eq_self (c : String) :
    ∀ cats : List String, c ∈ cats →
      (∀ c₁ ∈ cats, ∀ c₂ ∈ cats, normalizeCategoryForUrl c₁ = normalizeCategoryForUrl c₂ → c₁ = c₂) →
      cats.find? (fun cat => decide (jsTrim (jsToLower cat) = normalizeCategoryForUrl c)) = some c := by
  intro cats
  induction cats with
  | nil => intro hc _; simp at hc
  | cons d t ih =>
    intro hc hinj
    by_cases hd : jsTrim (jsToLower d) = normalizeCategoryForUrl c
    · have hdc : d = c := hinj d (List.mem_cons_self d t) c hc hd
      subst hdc
      rw [List.find?_cons_of_pos _ (by simp [hd])]
    · rw [List.find?_cons_of_neg _ (by simp [hd])]
      have hct : d ≠ c := by
        intro he
        subst he
        exact hd rfl
      have hmem : c ∈ t := by
        rcases List.mem_cons.mp hc with h1 | h1
        · exact absurd h1.symm hct
        · exact h1
      exact ih hmem fun x hx y hy =>
        hinj x (List.mem_cons_of_mem d hx) y (List.mem_cons_of_mem d hy)

/-- C3 amended: for a category list on which normalization is injective
(no two listed categories share a lower-cased trimmed form) and a listed
category c that is not the empty string, the round-trip
findOriginalCategory (normalizeCategoryForUrl c) categories returns c. -/
theorem findOriginalCategory_roundtrip (categories : List String) (c : String)
    (hc : c ∈ categories) (hne : c ≠ "")
    (hinj : ∀ c₁ ∈ categories, ∀ c₂ ∈ categories,
      normalizeCategoryForUrl c₁ = normalizeCategoryForUrl c₂ → c₁ = c₂) :
    findOriginalCategory (normalizeCategoryForUrl c) categories = some c := by
  have hfind := find?_normalized_eq_self c categories hc hinj
  simp only [findOriginalCategory]
  rw [show jsTrim (jsToLower (normalizeCategoryForUrl c)) = normalizeCategoryForUrl c from
    normalizeCategoryForUrl_idem c]
  rw [hfind]
  simp [hne]

/- Generic lemmas about the stable insertion sort model. -/

theorem orderedInsertB_perm {α : Type} (le : α → α → Bool) (a : α) (l : List α) :
    (orderedInsertB le a l).Perm (a :: l) := by
  induction l with
  | nil => exact List.Perm.refl _
  | cons b t ih =>
    by_cases h : le a b
    · rw [orderedInsertB, if_pos h]
    · rw [orderedInsertB, if_neg h]
      exact (ih.cons b).trans (List.Perm.swap a b t)

theorem insertionSortB_perm {α : Type} (le : α → α → Bool) (l : List α) :
    (insertionSortB le l).Perm l := by
  induction l with
  | nil => exact List.Perm.refl _
  | cons a t ih => exact (orderedInsertB_perm le a _).trans (ih.cons a)

theorem chain'_orderedInsertB {α : Type} (le : α → α → Bool)
    (htot : ∀ x y, le x y = true ∨ le y x = true) (a : α) :
    ∀ l : List α, List.Chain' (fun x y => le x y = true) l →
      List.Chain' (fun x y => le x y = true) (orderedInsertB le a l) := by
  intro l
  induction l with
  | nil =>
    intro _
    exact List.chain'_singleton a
  | cons b t ih =>
    intro h
    by_cases hab : le a b
    · rw [orderedInsertB, if_pos hab]
      exact List.chain'_cons.mpr ⟨hab, h⟩
    · rw [orderedInsertB, if_neg hab]
      have hba : le b a = true := (htot a b).resolve_left (by simpa using hab)
      rw [List.chain'_cons']
      refine ⟨?_, ih h.tail⟩
      intro y hy
      cases t with
      | nil =>
        simp only [orderedInsertB, List.head?_cons, Option.mem_def, Option.some.injEq] at hy
        subst hy
        exact hba
      | cons c t' =>
        by_cases hac : le a c
        · rw [orderedInsertB, if_pos hac] at hy
          simp only [List.head?_cons, Option.mem_def, Option.some.injEq] at hy
          subst hy
          exact hba
        · rw [orderedInsertB, if_neg hac] at hy
          simp only [List.head?_cons, Option.mem_def, Option.some.injEq] at hy
          subst hy
          exact (List.chain'_cons.mp h).1

theorem chain'_insertionSortB {α : Type} (le : α → α → Bool)
    (htot : ∀ x y, le x y = true ∨ le y x = true) (l : List α) :
    List.Chain' (fun x y => le x y = true) (insertionSortB le l) := by
  induction l with
  | nil => exact List.chain'_nil
  | cons a t ih => exact chain'_orderedInsertB le htot a _ ih

theorem filter_orderedInsertB_pos {α : Type} (le : α → α → Bool) (p : α → Bool) (a : α)
    (hpa : p a = true) (hle : ∀ x, p x = true → le a x = true) :
    ∀ l : List α, (orderedInsertB le a l).filter p = a :: l.filter p := by
  intro l
  induction l with
  | nil => simp [orderedInsertB, hpa]
  | cons b t ih =>
    by_cases hab : le a b
    · rw [orderedInsertB, if_pos hab, List.filter_cons, if_pos (by simp [hpa])]
    · have hpb : p b = false := by
        cases hpb : p b
        · rfl
        · exact absurd (hle b hpb) (by simpa using hab)
      rw [orderedInsertB, if_neg hab, List.filter_cons, if_neg (by simp [hpb]), ih,
        List.filter_cons, if_neg (by simp [hpb])]

theorem filter_orderedInsertB_neg {α : Type} (le : α → α → Bool) (p : α → Bool) (a : α)
    (hpa : p a = false) :
    ∀ l : List α, (orderedInsertB le a l).filter p = l.filter p := by
  intro l
  induction l with
  | nil => simp [orderedInsertB, hpa]
  | cons b t ih =>
    by_cases hab : le a b
    · rw [orderedInsertB, if_pos hab, List.filter_cons, if_neg (by simp [hpa])]
    · rw [orderedInsertB, if_neg hab, List.filter_cons, ih, List.filter_cons]

theorem filter_insertionSortB {α : Type} (le : α → α → Bool) (p : α → Bool)
    (hp : ∀ x y, p x = true → p y = true → le x y = true) (l : List α) :
    (insertionSortB le l).filter p = l.filter p := by
  induction l with
  | nil => rfl
  | cons a t ih =>
    cases hpa : p a
    · rw [insertionSortB, filter_orderedInsertB_neg le p a hpa, ih, List.filter_cons,
        if_neg (by simp [hpa])]
    · rw [insertionSortB, filter_orderedInsertB_pos le p a hpa (fun x hx => hp a x hpa hx), ih,
        List.filter_cons, if_pos (by simp [hpa])]

theorem chain'_imp_of_mem {α : Type} {R S : α → α → Prop} :
    ∀ l : List α, (∀ x ∈ l, ∀ y ∈ l, R x y → S x y) → List.Chain' R l → List.Chain' S l := by
  intro l
  induction l with
  | nil => intro _ _; exact List.chain'_nil
  | cons a t ih =>
    intro hmem h
    rw [List.chain'_cons'] at h ⊢
    refine ⟨?_, ih (fun x hx y hy => hmem x (List.mem_cons_of_mem a hx) y
      (List.mem_cons_of_mem a hy)) h.2⟩
    intro y hy
    have hyt : y ∈ t := List.mem_of_mem_head? hy
    exact hmem a (List.mem_cons_self a t) y (List.mem_cons_of_mem a hyt) (h.1 y hy)

/- Facts about localeCompare and the mode comparators. -/

theorem localeCompare_pos_iff (a b : String) : 0 < localeCompare a b ↔ b < a := by
  rcases lt_trichotomy a b with h | h | h
  · rw [localeCompare, if_pos h]
    simp [asymm h, not_lt_of_gt h]
  · rw [localeCompare, if_neg (by simp [h]), if_pos h]
    simp [h]
  · rw [localeCompare, if_neg (by simp [asymm h, not_lt_of_gt h]), if_neg (by
      intro he
      exact absurd h (by simp [he]))]
    simp [h]

theorem localeCompare_nonpos_iff (a b : String) : localeCompare a b ≤ 0 ↔ a ≤ b := by
  rw [← not_lt, ← not_lt, localeCompare_pos_iff]

theorem localeCompare_eq_zero_iff (a b : String) : localeCompare a b = 0 ↔ a = b := by
  constructor
  · intro h
    by_contra hne
    rcases lt_trichotomy a b with h1 | h1 | h1
    · rw [localeCompare, if_pos h1] at h
      exact absurd h (by decide)
    · exact hne h1
    · rw [localeCompare, if_neg (by simp [asymm h1, not_lt_of_gt h1]),
        if_neg (by intro he; exact absurd h1 (by simp [he]))] at h
      exact absurd h (by decide)
  · intro h
    rw [localeCompare, if_neg (by simp [h]), if_pos h]

theorem sortKeeps_total_of {α : Type} (cmp : α → α → JSNum)
    (h : ∀ a b, JSNum.gtB (cmp a b) (JSNum.num 0) = true →
      JSNum.gtB (cmp b a) (JSNum.num 0) = false) :
    ∀ a b : α, sortKeeps cmp a b = true ∨ sortKeeps cmp b a = true := by
  intro a b
  unfold sortKeeps
  cases hc : JSNum.gtB (cmp a b) (JSNum.num 0)
  · left; rfl
  · right
    rw [h a b hc]
    rfl

theorem comparatorOf_total (mode : SortBy) :
    ∀ a b : DatasetItem, sortKeeps (comparatorOf mode) a b = true
      ∨ sortKeeps (comparatorOf mode) b a = true := by
  apply sortKeeps_total_of
  intro a b hab
  cases mode with
  | nameAsc =>
    simp only [comparatorOf, JSNum.gtB, decide_eq_true_eq] at hab
    simp only [comparatorOf, JSNum.gtB, decide_eq_false_iff_not]
    have hab' : (0 : ℤ) < localeCompare a.name b.name := by exact_mod_cast hab
    rw [localeCompare_pos_iff] at hab'
    intro hcon
    have hcon' : (0 : ℤ) < localeCompare b.name a.name := by exact_mod_cast hcon
    rw [localeCompare_pos_iff] at hcon'
    exact absurd hcon' (asymm hab')
  | nameDesc =>
    simp only [comparatorOf, JSNum.gtB, decide_eq_true_eq] at hab
    simp only [comparatorOf, JSNum.gtB, decide_eq_false_iff_not]
    have hab' : (0 : ℤ) < localeCompare b.name a.name := by exact_mod_cast hab
    rw [localeCompare_pos_iff] at hab'
    intro hcon
    have hcon' : (0 : ℤ) < localeCompare a.name b.name := by exact_mod_cast hcon
    rw [localeCompare_pos_iff] at hcon'
    exact absurd hcon' (asymm hab')
  | ratingAsc =>
    cases ha : a.rating with
    | nan => simp [comparatorOf, ha, JSNum.sub, JSNum.gtB] at hab
    | num qa =>
      cases hb : b.rating with
      | nan => simp [comparatorOf, ha, hb, JSNum.sub, JSNum.gtB] at hab
      | num qb =>
        simp only [comparatorOf, ha, hb, JSNum.sub, JSNum.gtB, decide_eq_true_eq] at hab ⊢
        simp only [decide_eq_false_iff_not]
        linarith
  | ratingDesc =>
    cases ha : a.rating with
    | nan => simp [comparatorOf, ha, JSNum.sub, JSNum.gtB] at hab
    | num qa =>
      cases hb : b.rating with
      | nan => simp [comparatorOf, ha, hb, JSNum.sub, JSNum.gtB] at hab
      | num qb =>
        simp only [comparatorOf, ha, hb, JSNum.sub, JSNum.gtB, decide_eq_true_eq] at hab ⊢
        simp only [decide_eq_false_iff_not]
        linarith

theorem JSNum.sub_eq_zero {r s : JSNum} (h : JSNum.sub r s = JSNum.num 0) :
    ∃ q : ℚ, r = JSNum.num q ∧ s = JSNum.num q := by
  cases r with
  | nan => simp [JSNum.sub] at h
  | num a =>
    cases s with
    | nan => simp [JSNum.sub] at h
    | num b =>
      simp only [JSNum.sub, JSNum.num.injEq] at h
      exact ⟨b, by rw [show a = b from by linarith], rfl⟩

/-- C2: for every item collection whose ratings are actual numbers (the
data-model invariant; NaN has no order) and every sort mode, sortItems
returns a permutation of the input (the input itself is untouched, the sort
operating on a copy), adjacent result entries are ordered as the mode
promises (nonpositive localeCompare for name-asc, and analogously for the
other three modes), and items comparing equal under the mode's comparator
keep their relative input order (stability). -/
theorem sortItems_spec (items : List DatasetItem) (mode : SortBy)
    (hnum : ∀ it ∈ items, it.rating ≠ JSNum.nan) :
    (sortItems items mode).Perm items
    ∧ List.Chain' (fun a b => sortedBySpec mode a b = true) (sortItems items mode)
    ∧ ∀ x : DatasetItem,
        (sortItems items mode).filter (fun y => comparesEqual mode y x)
          = items.filter (fun y => comparesEqual mode y x) := by
  refine ⟨insertionSortB_perm _ items, ?_, ?_⟩
  · have hch := chain'_insertionSortB (sortKeeps (comparatorOf mode))
      (comparatorOf_total mode) items
    refine chain'_imp_of_mem _ ?_ hch
    intro x hx y hy hR
    have hx' : x ∈ items := (insertionSortB_perm _ items).mem_iff.mp hx
    have hy' : y ∈ items := (insertionSortB_perm _ items).mem_iff.mp hy
    cases mode with
    | nameAsc =>
      simp only [sortKeeps, comparatorOf, JSNum.gtB, Bool.not_eq_eq_eq_not, Bool.not_true,
        decide_eq_false_iff_not] at hR
      have h3 : ¬ ((0 : ℤ) < localeCompare x.name y.name) := fun hc => hR (by exact_mod_cast hc)
      simp only [sortedBySpec, decide_eq_true_eq]
      omega
    | nameDesc =>
      simp only [sortKeeps, comparatorOf, JSNum.gtB, Bool.not_eq_eq_eq_not, Bool.not_true,
        decide_eq_false_iff_not] at hR
      have h3 : ¬ ((0 : ℤ) < localeCompare y.name x.name) := fun hc => hR (by exact_mod_cast hc)
      simp only [sortedBySpec, decide_eq_true_eq]
      omega
    | ratingAsc =>
      obtain ⟨qx, hqx⟩ : ∃ q, x.rating = JSNum.num q := by
        cases hx2 : x.rating
        · exact absurd hx2 (hnum x hx')
        · exact ⟨_, rfl⟩
      obtain ⟨qy, hqy⟩ : ∃ q, y.rating = JSNum.num q := by
        cases hy2 : y.rating
        · exact absurd hy2 (hnum y hy')
        · exact ⟨_, rfl⟩
      simp only [sortKeeps, comparatorOf, hqx, hqy, JSNum.sub, JSNum.gtB,
        Bool.not_eq_eq_eq_not, Bool.not_true, decide_eq_false_iff_not] at hR
      simp only [sortedBySpec, hqx, hqy, JSNum.toQ, decide_eq_true_eq]
      linarith
    | ratingDesc =>
      obtain ⟨qx, hqx⟩ : ∃ q, x.rating = JSNum.num q := by
        cases hx2 : x.rating
        · exact absurd hx2 (hnum x hx')
        · exact ⟨_, rfl⟩
      obtain ⟨qy, hqy⟩ : ∃ q, y.rating = JSNum.num q := by
        cases hy2 : y.rating
        · exact absurd hy2 (hnum y hy')
        · exact ⟨_, rfl⟩
      simp only [sortKeeps, comparatorOf, hqx, hqy, JSNum.sub, JSNum.gtB,
        Bool.not_eq_eq_eq_not, Bool.not_true, decide_eq_false_iff_not] at hR
      simp only [sortedBySpec, hqx, hqy, JSNum.toQ, decide_eq_true_eq]
      linarith
  · intro x
    apply filter_insertionSortB
    intro y z hy hz
    cases mode with
    | nameAsc =>
      simp only [comparesEqual, comparatorOf, beq_iff_eq, JSNum.num.injEq] at hy hz
      have hyx : y.name = x.name := (localeCompare_eq_zero_iff _ _).mp (by exact_mod_cast hy)
      have hzx : z.name = x.name := (localeCompare_eq_zero_iff _ _).mp (by exact_mod_cast hz)
      have h0 : localeCompare y.name z.name = 0 := by
        rw [hyx, hzx]
        exact (localeCompare_eq_zero_iff _ _).mpr rfl
      simp [sortKeeps, comparatorOf, h0, JSNum.gtB]
    | nameDesc =>
      simp only [comparesEqual, comparatorOf, beq_iff_eq, JSNum.num.injEq] at hy hz
      have hyx : x.name = y.name := (localeCompare_eq_zero_iff _ _).mp (by exact_mod_cast hy)
      have hzx : x.name = z.name := (localeCompare_eq_zero_iff _ _).mp (by exact_mod_cast hz)
      have h0 : localeCompare z.name y.name = 0 := by
        rw [← hyx, ← hzx]
        exact (localeCompare_eq_zero_iff _ _).mpr rfl
      simp [sortKeeps, comparatorOf, h0, JSNum.gtB]
    | ratingAsc =>
      simp only [comparesEqual, comparatorOf, beq_iff_eq] at hy hz
      rcases JSNum.sub_eq_zero hy with ⟨q, hyr, hxr⟩
      rcases JSNum.sub_eq_zero hz with ⟨q', hzr, hxr'⟩
      have hq : q = q' := by
        rw [hxr] at hxr'
        exact (JSNum.num.injEq _ _).mp hxr'
      simp [sortKeeps, comparatorOf, hyr, hzr, hq, JSNum.sub, JSNum.gtB]
    | ratingDesc =>
      simp only [comparesEqual, comparatorOf, beq_iff_eq] at hy hz
      rcases JSNum.sub_eq_zero hy with ⟨q, hxr, hyr⟩
      rcases JSNum.sub_eq_zero hz with ⟨q', hxr', hzr⟩
      have hq : q = q' := by
        rw [hxr] at hxr'
        exact (JSNum.num.injEq _ _).mp hxr'
      simp [sortKeeps, comparatorOf, hyr, hzr, hq, JSNum.sub, JSNum.gtB]

/-- Witness for the C2 theorem: a concrete rating-descending sort with a
rating tie, checked end to end. -/
theorem sortItems_spec_witness :
    (sortItems [itW1, itW2, itW3] SortBy.ratingDesc).Perm [itW1, itW2, itW3]
    ∧ List.Chain' (fun a b => sortedBySpec SortBy.ratingDesc a b = true)
        (sortItems [itW1, itW2, itW3] SortBy.ratingDesc)
    ∧ (sortItems [itW1, itW2, itW3] SortBy.ratingDesc).filter
          (fun y => comparesEqual SortBy.ratingDesc y itW1)
        = [itW1, itW2, itW3].filter (fun y => comparesEqual SortBy.ratingDesc y itW1) := by
  have h := sortItems_spec [itW1, itW2, itW3] SortBy.ratingDesc (by decide)
  exact ⟨h.1, h.2.1, h.2.2 itW1⟩

/-- Witness for the amended C3 theorem on a concrete category list. -/
theorem findOriginalCategory_roundtrip_witness :
    findOriginalCategory (normalizeCategoryForUrl "Fintech") ["Fintech", "HealthTech"]
      = some "Fintech" :=
  findOriginalCategory_roundtrip ["Fintech", "HealthTech"] "Fintech" (by decide) (by decide)
    (by decide)

theorem JSNum.toQ_num (q : ℚ) : (JSNum.num q).toQ = q := rfl

theorem foldl_add_num :
    ∀ (l : List DatasetItem) (init : ℚ), (∀ it ∈ l, it.rating ≠ JSNum.nan) →
      l.foldl (fun sum item => JSNum.add sum item.rating) (JSNum.num init)
        = JSNum.num (init + (l.map fun it => it.rating.toQ).sum) := by
  intro l
  induction l with
  | nil => intro init _; simp
  | cons a t ih =>
    intro init h
    obtain ⟨qa, hqa⟩ : ∃ q, a.rating = JSNum.num q := by
      cases ha : a.rating
      · exact absurd ha (h a (List.mem_cons_self a t))
      · exact ⟨_, rfl⟩
    rw [List.foldl_cons]
    have hstep : JSNum.add (JSNum.num init) a.rating = JSNum.num (init + qa) := by
      rw [hqa]
      rfl
    rw [hstep, ih (init + qa) fun it hit => h it (List.mem_cons_of_mem a hit)]
    simp only [List.map_cons, List.sum_cons, hqa, JSNum.toQ, JSNum.num.injEq]
    ring

theorem sum_toQ_bounds :
    ∀ l : List DatasetItem, (∀ it ∈ l, 0 ≤ it.rating.toQ ∧ it.rating.toQ ≤ 5) →
      0 ≤ (l.map fun it => it.rating.toQ).sum
        ∧ (l.map fun it => it.rating.toQ).sum ≤ 5 * l.length := by
  intro l
  induction l with
  | nil => intro _; simp
  | cons a t ih =>
    intro h
    have ha := h a (List.mem_cons_self a t)
    have ht := ih fun it hit => h it (List.mem_cons_of_mem a hit)
    simp only [List.map_cons, List.sum_cons, List.length_cons]
    constructor
    · linarith [ha.1, ht.1]
    · push_cast
      linarith [ha.2, ht.2]

/-- C6: the three counters of calculateHomepageStatistics are the lengths
of the items, categories and tags collections; the average rating is the
arithmetic mean of the items' ratings, exactly 0 on an empty item list;
and under the data-model rating invariant (every rating a number in
[0, 5]) the average is itself a number in [0, 5]. -/
theorem calculateHomepageStatistics_spec (dataset : Dataset)
    (h5 : ∀ it ∈ dataset.items,
      it.rating ≠ JSNum.nan ∧ 0 ≤ it.rating.toQ ∧ it.rating.toQ ≤ 5) :
    (calculateHomepageStatistics dataset).totalItems = dataset.items.length
    ∧ (calculateHomepageStatistics dataset).totalCategories = dataset.categories.length
    ∧ (calculateHomepageStatistics dataset).totalTags = dataset.tags.length
    ∧ (calculateHomepageStatistics dataset).averageRating =
        (if dataset.items.length = 0 then JSNum.num 0
         else JSNum.num ((dataset.items.map fun it => it.rating.toQ).sum / dataset.items.length))
    ∧ (calculateHomepageStatistics dataset).averageRating ≠ JSNum.nan
    ∧ 0 ≤ (calculateHomepageStatistics dataset).averageRating.toQ
    ∧ (calculateHomepageStatistics dataset).averageRating.toQ ≤ 5 := by
  have havg : (calculateHomepageStatistics dataset).averageRating =
      (if dataset.items.length = 0 then JSNum.num 0
       else JSNum.num ((dataset.items.map fun it => it.rating.toQ).sum / dataset.items.length)) := by
    simp only [calculateHomepageStatistics]
    by_cases h : dataset.items.length = 0
    · rw [if_neg (by omega), if_pos h]
    · rw [if_pos (by omega), if_neg h,
        foldl_add_num dataset.items 0 fun it hit => (h5 it hit).1]
      have hlen : ((dataset.items.length : ℚ)) ≠ 0 := by
        exact_mod_cast h
      simp [JSNum.div, hlen]
  refine ⟨rfl, rfl, rfl, havg, ?_, ?_, ?_⟩ <;> rw [havg] <;> by_cases h : dataset.items.length = 0
  · simp [h]
  · simp [h]
  · simp [h, JSNum.toQ_num]
  · rw [if_neg h, JSNum.toQ_num]
    have hb := sum_toQ_bounds dataset.items fun it hit => (h5 it hit).2
    have hlen : (0 : ℚ) < dataset.items.length := by
      have h2 : 0 < dataset.items.length := Nat.pos_of_ne_zero h
      exact_mod_cast h2
    exact div_nonneg hb.1 (le_of_lt hlen)
  · simp [h, JSNum.toQ_num]
  · rw [if_neg h, JSNum.toQ_num]
    have hb := sum_toQ_bounds dataset.items fun it hit => (h5 it hit).2
    have hlen : (0 : ℚ) < dataset.items.length := by
      have h2 : 0 < dataset.items.length := Nat.pos_of_ne_zero h
      exact_mod_cast h2
    rw [div_le_iff₀ hlen]
    linarith [hb.2]

/-- Witness for the C6 theorem on a concrete three-item dataset. -/
theorem calculateHomepageStatistics_spec_witness :
    (calculateHomepageStatistics dsW).totalItems = dsW.items.length
    ∧ (calculateHomepageStatistics dsW).totalCategories = dsW.categories.length
    ∧ (calculateHomepageStatistics dsW).totalTags = dsW.tags.length
    ∧ (calculateHomepageStatistics dsW).averageRating =
        (if dsW.items.length = 0 then JSNum.num 0
         else JSNum.num ((dsW.items.map fun it => it.rating.toQ).sum / dsW.items.length))
    ∧ (calculateHomepageStatistics dsW).averageRating ≠ JSNum.nan
    ∧ 0 ≤ (calculateHomepageStatistics dsW).averageRating.toQ
    ∧ (calculateHomepageStatistics dsW).averageRating.toQ ≤ 5 :=
  calculateHomepageStatistics_spec dsW (by decide)

theorem checkRequiredFields_cons (item : JSValue) (field expectedType : String)
    (rest : List (String × String)) :
    checkRequiredFields item ((field, expectedType) :: rest)
      = (fieldOk item field expectedType && checkRequiredFields item rest) := by
  rw [checkRequiredFields]
  by_cases h1 : item.hasField field = true
  · by_cases h2 : (expectedType == "array") = true
    · by_cases h3 : (item.getField field).isArr = true
      · by_cases h4 : (field == "tags" && ! allStringElems (item.getField field)) = true
        · simp [fieldOk, h1, h2, h3, h4]
        · simp [fieldOk, h1, h2, h3, h4]
      · simp [fieldOk, h1, h2, h3]
    · by_cases h5 : ((item.getField field).typeOf != expectedType) = true
      · simp [fieldOk, h1, h2, h5]
      · simp [fieldOk, h1, h2, h5]
  · simp [fieldOk, h1]

theorem isValidItem_eq (v : JSValue) :
    isValidItem v =
      (v.truthy && (v.typeOf == "object")
        && fieldOk v "name" "string" && fieldOk v "category" "string"
        && fieldOk v "tags" "array" && fieldOk v "rating" "number"
        && fieldOk v "description" "string"
        && ! ratingOutOfRange (v.getField "rating")) := by
  rw [isValidItem, requiredFieldsList, checkRequiredFields_cons, checkRequiredFields_cons,
    checkRequiredFields_cons, checkRequiredFields_cons, checkRequiredFields_cons]
  by_cases h1 : v.truthy = true
  · by_cases h2 : (v.typeOf != "object") = true
    · have h2' : (v.typeOf == "object") = false := by
        simpa [bne] using h2
      simp [h1, h2, h2']
    · have h2' : (v.typeOf == "object") = true := by
        simpa [bne] using h2
      by_cases h3 : (fieldOk v "name" "string" && (fieldOk v "category" "string" &&
        (fieldOk v "tags" "array" && (fieldOk v "rating" "number" &&
        (fieldOk v "description" "string" && checkRequiredFields v []))))) = true
      · by_cases h4 : ratingOutOfRange (v.getField "rating") = true
        · simp [h1, h2, h2', checkRequiredFields] at h3 ⊢
          simp [h3, h4]
        · simp [h1, h2, h2', checkRequiredFields] at h3 ⊢
          simp [h3, h4]
      · simp [h1, h2, h2', checkRequiredFields] at h3 ⊢
        by_cases h4 : ratingOutOfRange (v.getField "rating") = true <;>
          rcases Bool.eq_false_or_eq_true (fieldOk v "name" "string") with hn | hn <;>
            simp_all [Bool.and_assoc]
  · simp [h1]


theorem hasField_of_getField_ne_undef {fs : List (String × JSValue)} {f : String}
    (h : (JSValue.objV fs).getField f ≠ JSValue.undef) :
    (JSValue.objV fs).hasField f = true := by
  simp only [JSValue.getField, JSValue.hasField] at *
  cases hl : JSValue.lookupField fs f
  · rw [hl] at h
    simp at h
  · simp [hl]

theorem fieldOk_congr {v w : JSValue} (f ty : String)
    (hh : v.hasField f = w.hasField f) (hg : v.getField f = w.getField f) :
    fieldOk v f ty = fieldOk w f ty := by
  simp only [fieldOk, hh, hg]

/-- C7: isValidItem rejects any candidate that is not a truthy value of
typeof object, any candidate missing one of the five required fields or
carrying it at the wrong type, any candidate whose tags array has a
non-string element, and any candidate whose numeric rating lies outside
[0, 5]; and the verdict depends only on truthiness, typeof, and the five
required fields, so fields such as id, slug, createdAt or variant-specific
ones never influence it. -/
theorem isValidItem_spec :
    (∀ v : JSValue, (v.truthy = false ∨ v.typeOf ≠ "object") → isValidItem v = false)
    ∧ (∀ v : JSValue, ∀ f ∈ ["name", "category", "tags", "rating", "description"],
        v.hasField f = false → isValidItem v = false)
    ∧ (∀ v : JSValue, ∀ f ∈ ["name", "category", "description"],
        (v.getField f).typeOf ≠ "string" → isValidItem v = false)
    ∧ (∀ v : JSValue, (v.getField "rating").typeOf ≠ "number" → isValidItem v = false)
    ∧ (∀ v : JSValue, (v.getField "tags").isArr = false → isValidItem v = false)
    ∧ (∀ v : JSValue, ∀ xs : List JSValue, v.getField "tags" = JSValue.arrV xs →
        (∃ t ∈ xs, t.typeOf ≠ "string") → isValidItem v = false)
    ∧ (∀ v : JSValue, ∀ q : ℚ, v.getField "rating" = JSValue.numV (JSNum.num q) →
        (q < 0 ∨ 5 < q) → isValidItem v = false)
    ∧ (∀ v w : JSValue, v.truthy = w.truthy → v.typeOf = w.typeOf →
        (∀ f ∈ ["name", "category", "tags", "rating", "description"],
          v.hasField f = w.hasField f ∧ v.getField f = w.getField f) →
        isValidItem v = isValidItem w) := by
  refine ⟨?_, ?_, ?_, ?_, ?_, ?_, ?_, ?_⟩
  · intro v h
    rw [isValidItem_eq]
    rcases h with h | h
    · simp [h]
    · simp [show (v.typeOf == "object") = false by simpa using h]
  · intro v f hf hmiss
    rw [isValidItem_eq]
    simp only [List.mem_cons, List.mem_singleton] at hf
    rcases hf with rfl | rfl | rfl | rfl | rfl | hf
    · simp [fieldOk, hmiss]
    · simp [fieldOk, hmiss]
    · simp [fieldOk, hmiss]
    · simp [fieldOk, hmiss]
    · simp [fieldOk, hmiss]
    · simp at hf
  · intro v f hf hty
    rw [isValidItem_eq]
    simp only [List.mem_cons, List.mem_singleton] at hf
    rcases hf with rfl | rfl | rfl | hf
    · simp [fieldOk, show ((v.getField "name").typeOf != "string") = true from by
        rw [bne_iff_ne]; exact hty]
    · simp [fieldOk, show ((v.getField "category").typeOf != "string") = true from by
        rw [bne_iff_ne]; exact hty]
    · simp [fieldOk, show ((v.getField "description").typeOf != "string") = true from by
        rw [bne_iff_ne]; exact hty]
    · simp at hf
  · intro v hty
    rw [isValidItem_eq]
    simp [fieldOk, show ((v.getField "rating").typeOf != "number") = true from by
      rw [bne_iff_ne]; exact hty]
  · intro v harr
    rw [isValidItem_eq]
    simp [fieldOk, harr]
  · intro v xs hxs hex
    rw [isValidItem_eq]
    have hstr : allStringElems (JSValue.arrV xs) = false := by
      rcases hex with ⟨t, ht, hne⟩
      cases h : allStringElems (JSValue.arrV xs)
      · rfl
      · exfalso
        simp only [allStringElems, List.all_eq_true, beq_iff_eq] at h
        exact hne (h t ht)
    simp [fieldOk, hxs, hstr, JSValue.isArr]
  · intro v q hq hout
    rw [isValidItem_eq]
    have hr : ratingOutOfRange (v.getField "rating") = true := by
      rw [hq]
      simp only [ratingOutOfRange, JSNum.ltB, JSNum.gtB]
      rcases hout with h | h
      · simp [h]
      · simp [h]
    simp [hr]
  · intro v w h1 h2 h3
    have hn := h3 "name" (by simp)
    have hc := h3 "category" (by simp)
    have ht := h3 "tags" (by simp)
    have hr := h3 "rating" (by simp)
    have hd := h3 "description" (by simp)
    rw [isValidItem_eq, isValidItem_eq, h1, h2, fieldOk_congr "name" "string" hn.1 hn.2,
      fieldOk_congr "category" "string" hc.1 hc.2, fieldOk_congr "tags" "array" ht.1 ht.2,
      fieldOk_congr "rating" "number" hr.1 hr.2,
      fieldOk_congr "description" "string" hd.1 hd.2, hr.2]

/-- Witness for the C7 theorem: a string candidate, a candidate missing
its name, a candidate with rating 6, and a pair differing only in fields
outside the five checked ones. -/
theorem isValidItem_spec_witness :
    isValidItem (JSValue.strV "x") = false
    ∧ isValidItem vMissingName = false
    ∧ isValidItem vBadRating = false
    ∧ isValidItem vExtraA = isValidItem vExtraB := by
  refine ⟨?_, ?_, ?_, ?_⟩
  · exact isValidItem_spec.1 (JSValue.strV "x") (Or.inr (by decide))
  · exact isValidItem_spec.2.1 vMissingName "name" (by simp) (by decide)
  · exact isValidItem_spec.2.2.2.2.2.2.1 vBadRating 6 rfl (Or.inr (by norm_num))
  · refine isValidItem_spec.2.2.2.2.2.2.2 vExtraA vExtraB rfl rfl ?_
    intro f hf
    fin_cases hf <;> exact ⟨rfl, rfl⟩

/-- C10: any object candidate whose name, category and description read as
strings, whose tags field is an array of strings, and whose rating is NaN
is accepted by isValidItem (NaN has typeof number, and both range tests
are false on NaN), and a well-shaped dataset whose items list contains
such a candidate passes isValidDataset. -/
theorem isValidItem_nan_accepted (fs : List (String × JSValue))
    (hname : ((JSValue.objV fs).getField "name").typeOf = "string")
    (hcat : ((JSValue.objV fs).getField "category").typeOf = "string")
    (hdesc : ((JSValue.objV fs).getField "description").typeOf = "string")
    (htags : ∃ xs : List JSValue, (JSValue.objV fs).getField "tags" = JSValue.arrV xs
      ∧ ∀ t ∈ xs, t.typeOf = "string")
    (hrat : (JSValue.objV fs).getField "rating" = JSValue.numV JSNum.nan) :
    isValidItem (JSValue.objV fs) = true
    ∧ isValidDataset (JSValue.objV [("type", JSValue.strV "startups"),
        ("items", JSValue.arrV [JSValue.objV fs]),
        ("categories", JSValue.arrV []), ("tags", JSValue.arrV [])]) = true := by
  rcases htags with ⟨xs, hxs, hall⟩
  have hvalid : isValidItem (JSValue.objV fs) = true := by
    rw [isValidItem_eq]
    have hfn : (JSValue.objV fs).hasField "name" = true := by
      apply hasField_of_getField_ne_undef
      intro he
      rw [he] at hname
      exact absurd hname (by decide)
    have hfc : (JSValue.objV fs).hasField "category" = true := by
      apply hasField_of_getField_ne_undef
      intro he
      rw [he] at hcat
      exact absurd hcat (by decide)
    have hfd : (JSValue.objV fs).hasField "description" = true := by
      apply hasField_of_getField_ne_undef
      intro he
      rw [he] at hdesc
      exact absurd hdesc (by decide)
    have hft : (JSValue.objV fs).hasField "tags" = true := by
      apply hasField_of_getField_ne_undef
      intro he
      rw [he] at hxs
      exact JSValue.noConfusion hxs
    have hfr : (JSValue.objV fs).hasField "rating" = true := by
      apply hasField_of_getField_ne_undef
      intro he
      rw [he] at hrat
      exact JSValue.noConfusion hrat
    have hstr : allStringElems (JSValue.arrV xs) = true := by
      simp only [allStringElems, List.all_eq_true, beq_iff_eq]
      exact hall
    have htru : (JSValue.objV fs).truthy = true := rfl
    have htyp : ((JSValue.objV fs).typeOf == "object") = true := rfl
    have hnum : (JSValue.numV JSNum.nan).typeOf = "number" := rfl
    simp [fieldOk, htru, htyp, hfn, hfc, hfd, hft, hfr, hname, hcat, hdesc, hxs, hrat,
      hstr, hnum, ratingOutOfRange, JSNum.ltB, JSNum.gtB, JSValue.isArr]
  refine ⟨hvalid, ?_⟩
  simp [isValidDataset, JSValue.truthy, JSValue.typeOf, JSValue.hasField, JSValue.getField,
    JSValue.lookupField, JSValue.isArr, hvalid]

/-- Witness for the C10 theorem: the concrete NaN-rated candidate vNaN is
accepted by isValidItem and by isValidDataset inside a well-shaped dataset. -/
theorem isValidItem_nan_accepted_witness :
    isValidItem vNaN = true
    ∧ isValidDataset (JSValue.objV [("type", JSValue.strV "startups"),
        ("items", JSValue.arrV [vNaN]),
        ("categories", JSValue.arrV []), ("tags", JSValue.arrV [])]) = true :=
  isValidItem_nan_accepted vNaNFields rfl rfl rfl
    ⟨[JSValue.strV "ai"], rfl, by decide⟩ rfl

/-- C8 counterexample: on a source whose `type` field is the empty string
the loader throws, although the claim's failure condition does not hold
there (the source is a truthy object, `type` is present and is a string,
and items/categories/tags are arrays); the code tests `!dataset.type`
(falsiness), not "type is a string". -/
theorem loadDataset_claim_counterexample :
    loadDataset dsEmptyType
        = Except.error "Dataset loading failed: Dataset must have a \"type\" field"
    ∧ dsEmptyType.truthy = true
    ∧ dsEmptyType.typeOf = "object"
    ∧ dsEmptyType.hasField "type" = true
    ∧ (dsEmptyType.getField "type").typeOf = "string"
    ∧ (dsEmptyType.getField "items").isArr = true
    ∧ (dsEmptyType.getField "categories").isArr = true
    ∧ (dsEmptyType.getField "tags").isArr = true :=
  ⟨rfl, rfl, rfl, rfl, rfl, rfl, rfl, rfl⟩

/-- C8 amended: loadDataset throws (with a descriptive message) exactly
when the source is falsy, is not of typeof object, has a falsy `type`
field (absent, or present but falsy such as the empty string — not "not a
string"), or has a non-array items, categories or tags field; otherwise it
returns the source value unchanged. -/
theorem loadDataset_spec (src : JSValue) :
    ((∃ e : String, loadDataset src = Except.error e) ↔
      (src.truthy = false ∨ src.typeOf ≠ "object"
        ∨ (src.getField "type").truthy = false
        ∨ (src.getField "items").isArr = false
        ∨ (src.getField "categories").isArr = false
        ∨ (src.getField "tags").isArr = false))
    ∧ ((src.truthy = true ∧ src.typeOf = "object"
        ∧ (src.getField "type").truthy = true
        ∧ (src.getField "items").isArr = true
        ∧ (src.getField "categories").isArr = true
        ∧ (src.getField "tags").isArr = true) →
      loadDataset src = Except.ok src) := by
  by_cases c1 : src.truthy = true
  case neg =>
    have c1' : src.truthy = false := by simpa using c1
    have herr : loadDataset src = Except.error
        "Dataset loading failed: Dataset file is missing or empty. Please ensure data/dataset.json exists and contains valid data." := by
      simp [loadDataset, c1']
    exact ⟨⟨fun _ => Or.inl c1', fun _ => ⟨_, herr⟩⟩, fun hc => absurd hc.1 (by simp [c1'])⟩
  case pos =>
  by_cases c2 : src.typeOf = "object"
  case neg =>
    have herr : loadDataset src = Except.error
        "Dataset loading failed: Dataset must be a valid JSON object" := by
      simp [loadDataset, c1, c2]
    exact ⟨⟨fun _ => Or.inr (Or.inl c2), fun _ => ⟨_, herr⟩⟩,
      fun hc => absurd hc.2.1 c2⟩
  case pos =>
  by_cases c3 : (src.getField "type").truthy = true
  case neg =>
    have c3' : (src.getField "type").truthy = false := by simpa using c3
    have herr : loadDataset src = Except.error
        "Dataset loading failed: Dataset must have a \"type\" field" := by
      simp [loadDataset, c1, c2, c3']
    exact ⟨⟨fun _ => Or.inr (Or.inr (Or.inl c3')), fun _ => ⟨_, herr⟩⟩,
      fun hc => absurd hc.2.2.1 (by simp [c3'])⟩
  case pos =>
  by_cases c4 : (src.getField "items").isArr = true
  case neg =>
    have c4' : (src.getField "items").isArr = false := by simpa using c4
    have herr : loadDataset src = Except.error
        "Dataset loading failed: Dataset must have an \"items\" array" := by
      simp [loadDataset, c1, c2, c3, c4']
    exact ⟨⟨fun _ => Or.inr (Or.inr (Or.inr (Or.inl c4'))), fun _ => ⟨_, herr⟩⟩,
      fun hc => absurd hc.2.2.2.1 (by simp [c4'])⟩
  case pos =>
  by_cases c5 : (src.getField "categories").isArr = true
  case neg =>
    have c5' : (src.getField "categories").isArr = false := by simpa using c5
    have herr : loadDataset src = Except.error
        "Dataset loading failed: Dataset must have a \"categories\" array" := by
      simp [loadDataset, c1, c2, c3, c4, c5']
    exact ⟨⟨fun _ => Or.inr (Or.inr (Or.inr (Or.inr (Or.inl c5')))), fun _ => ⟨_, herr⟩⟩,
      fun hc => absurd hc.2.2.2.2.1 (by simp [c5'])⟩
  case pos =>
  by_cases c6 : (src.getField "tags").isArr = true
  case neg =>
    have c6' : (src.getField "tags").isArr = false := by simpa using c6
    have herr : loadDataset src = Except.error
        "Dataset loading failed: Dataset must have a \"tags\" array" := by
      simp [loadDataset, c1, c2, c3, c4, c5, c6']
    exact ⟨⟨fun _ => Or.inr (Or.inr (Or.inr (Or.inr (Or.inr c6')))), fun _ => ⟨_, herr⟩⟩,
      fun hc => absurd hc.2.2.2.2.2 (by simp [c6'])⟩
  case pos =>
  have hok : loadDataset src = Except.ok src := by
    simp [loadDataset, c1, c2, c3, c4, c5, c6]
  refine ⟨⟨?_, ?_⟩, fun _ => hok⟩
  · rintro ⟨e, he⟩
    rw [hok] at he
    exact Except.noConfusion he
  · intro hdis
    rcases hdis with h | h | h | h | h | h
    · exact absurd c1 (by simp [h])
    · exact absurd c2 h
    · exact absurd c3 (by simp [h])
    · exact absurd c4 (by simp [h])
    · exact absurd c5 (by simp [h])
    · exact absurd c6 (by simp [h])

/-- Witness for the amended C8 theorem: a concrete well-shaped source is
returned unchanged. -/
theorem loadDataset_spec_witness : loadDataset dsGood = Except.ok dsGood :=
  (loadDataset_spec dsGood).2 (by decide)

theorem loadDataset_ok_inv {j d : JSValue} (h : loadDataset j = Except.ok d) :
    d = j ∧ j.truthy = true := by
  unfold loadDataset at h
  split_ifs at h with h1 h2 h3 h4 h5 h6
  injection h with h'
  refine ⟨h'.symm, ?_⟩
  simpa using h1

theorem getDataset_first (j d : JSValue) (h : loadDataset j = Except.ok d) :
    getDataset j initialLoaderState = (Except.ok d, LoaderState.mk d 1) := by
  simp [getDataset, initialLoaderState, JSValue.truthy, h]

theorem getDataset_cached (j : JSValue) (st : LoaderState)
    (ht : st.cachedDataset.truthy = true) :
    getDataset j st = (Except.ok st.cachedDataset, st) := by
  rw [getDataset, if_pos ht]

/-- C9: when the source loads successfully, the first getDataset call in a
process invokes loadDataset exactly once and stores its result in the
module cache, and every later call returns that identical cached value
with the invocation count still 1 (no further loadDataset call).  In this
embedding the cache is written only by getDataset itself and the cached
value is never mutated, which is the ownership part of the claim. -/
theorem getDataset_memoization (j d : JSValue) (h : loadDataset j = Except.ok d) :
    ∀ n : Nat, loaderStateAfter j (n + 1) = LoaderState.mk d 1
      ∧ getDatasetResult j n = Except.ok d := by
  have hd : d.truthy = true := by
    have hj := loadDataset_ok_inv h
    rw [hj.1]
    exact hj.2
  intro n
  induction n with
  | zero =>
    constructor
    · show (getDataset j (loaderStateAfter j 0)).2 = _
      rw [show loaderStateAfter j 0 = initialLoaderState from rfl, getDataset_first j d h]
    · show (getDataset j (loaderStateAfter j 0)).1 = _
      rw [show loaderStateAfter j 0 = initialLoaderState from rfl, getDataset_first j d h]
  | succ n ih =>
    have hcall : getDataset j (LoaderState.mk d 1) = (Except.ok d, LoaderState.mk d 1) :=
      getDataset_cached j (LoaderState.mk d 1) hd
    constructor
    · show (getDataset j (loaderStateAfter j (n + 1))).2 = _
      rw [ih.1, hcall]
    · show (getDataset j (loaderStateAfter j (n + 1))).1 = _
      rw [ih.1, hcall]

/-- Witness for the C9 theorem: after four calls on a concrete source the
cache holds the loaded value and loadDataset has run exactly once, and the
third call returned the cached value. -/
theorem getDataset_memoization_witness :
    loaderStateAfter dsGood 3 = LoaderState.mk dsGood 1
    ∧ getDatasetResult dsGood 2 = Except.ok dsGood :=
  getDataset_memoization dsGood dsGood rfl 2
